import Mathlib

/-!
Verification of the incremental RAG ingestion pipeline (the_embedder).

Shallow embedding of the sync engine: chunk identity (qdrant_chunker.py),
the diff/compare logic and streaming upload loop (handlers.py), the Qdrant
scan and sync planning (qdrant_manager.py), the embedder retry loop
(embedder.py) and the CLI model-selection logic (cli.py).

Bytes are modelled as natural numbers below 256, byte strings as lists of
naturals. 32-bit machine arithmetic is modelled on Nat with explicit
reduction modulo 2 to the 32.
-/

namespace RagSync

/-- 2 to the 32, the modulus of 32-bit machine arithmetic. -/
def M32 : Nat := 4294967296

/-- 32-bit modular addition. -/
def add32 (a b : Nat) : Nat := (a + b) % M32

/-- 32-bit right rotation by n (for reduced inputs below M32). -/
def rotr32 (n x : Nat) : Nat := (x / 2 ^ n + (x % 2 ^ n) * 2 ^ (32 - n)) % M32

/-- 32-bit left rotation by n (for reduced inputs below M32). -/
def rotl32 (n x : Nat) : Nat := (x % 2 ^ (32 - n)) * 2 ^ n + x / 2 ^ (32 - n)

/-- Logical right shift. -/
def shr32 (n x : Nat) : Nat := x / 2 ^ n

/-- 32-bit bitwise complement (for reduced inputs below M32). -/
def not32 (x : Nat) : Nat := 4294967295 - x

/-- Block splitting with explicit fuel (structural recursion so that the
kernel can evaluate it; the fuel is the list length at the entry point). -/
def toBlocksFuel {α : Type} (size : Nat) : Nat → List α → List (List α)
  | 0, _ => []
  | _ + 1, [] => []
  | fuel + 1, x :: xs =>
    (x :: xs).take (max 1 size) :: toBlocksFuel size fuel ((x :: xs).drop (max 1 size))

/-- Split a list into consecutive blocks of the given size (the size is
taken to be at least one; it is 64 or 65536 everywhere below). -/
def toBlocks {α : Type} (size : Nat) (l : List α) : List (List α) :=
  toBlocksFuel size l.length l

/-- Big-endian encoding of a natural into the given number of bytes. -/
def toBytesBE (len v : Nat) : List Nat :=
  match len with
  | 0 => []
  | k + 1 => toBytesBE k (v / 256) ++ [v % 256]

/-- Group bytes four at a time into big-endian 32-bit words. -/
def bytesToWordsBE : List Nat → List Nat
  | a :: b :: c :: d :: rest => (((a * 256 + b) * 256 + c) * 256 + d) :: bytesToWordsBE rest
  | _ => []

/-- Merkle-Damgard padding shared by SHA-256 and SHA-1: append the 0x80
byte, zeros up to 56 mod 64, then the 8-byte big-endian bit length. -/
def shaPad (msg : List Nat) : List Nat :=
  msg ++ [128] ++ List.replicate ((119 - msg.length % 64) % 64) 0 ++ toBytesBE 8 (msg.length * 8)

/-- SHA-256 round constants. -/
def sha256K : List Nat :=
  [1116352408, 1899447441, 3049323471, 3921009573, 961987163, 1508970993,
   2453635748, 2870763221, 3624381080, 310598401, 607225278, 1426881987,
   1925078388, 2162078206, 2614888103, 3248222580, 3835390401, 4022224774,
   264347078, 604807628, 770255983, 1249150122, 1555081692, 1996064986,
   2554220882, 2821834349, 2952996808, 3210313671, 3336571891, 3584528711,
   113926993, 338241895, 666307205, 773529912, 1294757372, 1396182291,
   1695183700, 1986661051, 2177026350, 2456956037, 2730485921, 2820302411,
   3259730800, 3345764771, 3516065817, 3600352804, 4094571909, 275423344,
   430227734, 506948616, 659060556, 883997877, 958139571, 1322822218,
   1537002063, 1747873779, 1955562222, 2024104815, 2227730452, 2361852424,
   2428436474, 2756734187, 3204031479, 3329325298]

/-- SHA-256 initial hash values. -/
def sha256H0 : List Nat :=
  [1779033703, 3144134277, 1013904242, 2773480762, 1359893119, 2600822924,
   528734635, 1541459225]

/-- Extend the 16 message words of a block to the 64-entry SHA-256 message
schedule; the first argument is the number of words still to append. -/
def sha256ext : Nat → List Nat → List Nat
  | 0, w => w
  | k + 1, w =>
    let n := w.length
    let w15 := w.getD (n - 15) 0
    let w2 := w.getD (n - 2) 0
    let w7 := w.getD (n - 7) 0
    let w16 := w.getD (n - 16) 0
    let s0 := Nat.xor (Nat.xor (rotr32 7 w15) (rotr32 18 w15)) (shr32 3 w15)
    let s1 := Nat.xor (Nat.xor (rotr32 17 w2) (rotr32 19 w2)) (shr32 10 w2)
    sha256ext k (w ++ [(w16 + s0 + w7 + s1) % M32])

/-- One SHA-256 compression round on the state [a,b,c,d,e,f,g,h]. -/
def sha256round (st : List Nat) (kw : Nat × Nat) : List Nat :=
  match st with
  | [a, b, c, d, e, f, g, h] =>
    let s1 := Nat.xor (Nat.xor (rotr32 6 e) (rotr32 11 e)) (rotr32 25 e)
    let ch := Nat.xor (Nat.land e f) (Nat.land (not32 e) g)
    let t1 := (h + s1 + ch + kw.1 + kw.2) % M32
    let s0 := Nat.xor (Nat.xor (rotr32 2 a) (rotr32 13 a)) (rotr32 22 a)
    let mj := Nat.xor (Nat.xor (Nat.land a b) (Nat.land a c)) (Nat.land b c)
    let t2 := (s0 + mj) % M32
    [(t1 + t2) % M32, a, b, c, (d + t1) % M32, e, f, g]
  | _ => st

/-- SHA-256 compression of a single 64-byte block into the running state. -/
def sha256block (h : List Nat) (block : List Nat) : List Nat :=
  let w := sha256ext 48 (bytesToWordsBE block)
  let st := (sha256K.zip w).foldl sha256round h
  List.zipWith add32 h st

/-- SHA-256 of a byte string, as 32 bytes (FIPS 180-4; models hashlib.sha256). -/
def sha256 (msg : List Nat) : List Nat :=
  ((toBlocks 64 (shaPad msg)).foldl sha256block sha256H0).flatMap (toBytesBE 4)

/-- SHA-1 initial hash values. -/
def sha1H0 : List Nat := [1732584193, 4023233417, 2562383102, 271733878, 3285377520]

/-- SHA-1 round constant for round i. -/
def sha1K (i : Nat) : Nat :=
  if i < 20 then 1518500249 else if i < 40 then 1859775393
  else if i < 60 then 2400959708 else 3395469782

/-- SHA-1 round function for round i. -/
def sha1f (i b c d : Nat) : Nat :=
  if i < 20 then Nat.lor (Nat.land b c) (Nat.land (not32 b) d)
  else if i < 40 then Nat.xor (Nat.xor b c) d
  else if i < 60 then Nat.xor (Nat.xor (Nat.land b c) (Nat.land b d)) (Nat.land c d)
  else Nat.xor (Nat.xor b c) d

/-- Extend the 16 message words of a block to the 80-entry SHA-1 schedule. -/
def sha1ext : Nat → List Nat → List Nat
  | 0, w => w
  | k + 1, w =>
    let n := w.length
    let x := Nat.xor (Nat.xor (w.getD (n - 3) 0) (w.getD (n - 8) 0))
      (Nat.xor (w.getD (n - 14) 0) (w.getD (n - 16) 0))
    sha1ext k (w ++ [rotl32 1 x])

/-- One SHA-1 compression round on the state [a,b,c,d,e]. -/
def sha1round (st : List Nat) (iw : Nat × Nat) : List Nat :=
  match st with
  | [a, b, c, d, e] =>
    let t := (rotl32 5 a + sha1f iw.1 b c d + e + sha1K iw.1 + iw.2) % M32
    [t, a, rotl32 30 b, c, d]
  | _ => st

/-- SHA-1 compression of a single 64-byte block into the running state. -/
def sha1block (h : List Nat) (block : List Nat) : List Nat :=
  let w := sha1ext 64 (bytesToWordsBE block)
  let st := (w.enum.map (fun p => (p.1, p.2))).foldl sha1round h
  List.zipWith add32 h st

/-- SHA-1 of a byte string, as 20 bytes (FIPS 180-4; models hashlib.sha1,
which Python uuid.uuid5 is built on). -/
def sha1 (msg : List Nat) : List Nat :=
  ((toBlocks 64 (shaPad msg)).foldl sha1block sha1H0).flatMap (toBytesBE 4)

/-- Lowercase hexadecimal digit. -/
def hexChar (n : Nat) : Char := "0123456789abcdef".toList.getD n '0'

/-- Lowercase hexadecimal rendering of a byte string (models hexdigest). -/
def bytesToHex (bs : List Nat) : String :=
  String.mk (bs.flatMap (fun b => [hexChar (b / 16), hexChar (b % 16)]))

/-- UTF-8 encoding of one character (models Python str.encode). -/
def utf8Char (c : Char) : List Nat :=
  let n := c.toNat
  if n < 128 then [n]
  else if n < 2048 then [192 + n / 64, 128 + n % 64]
  else if n < 65536 then [224 + n / 4096, 128 + n / 64 % 64, 128 + n % 64]
  else [240 + n / 262144, 128 + n / 4096 % 64, 128 + n / 64 % 64, 128 + n % 64]

/-- UTF-8 encoding of a string. -/
def utf8Bytes (s : String) : List Nat := s.toList.flatMap utf8Char

/-- The 16 bytes of the RFC 4122 DNS namespace
6ba7b810-9dad-11d1-80b4-00c04fd430c8 (uuid.NAMESPACE_DNS). -/
def NAMESPACE_DNS : List Nat :=
  [0x6b, 0xa7, 0xb8, 0x10, 0x9d, 0xad, 0x11, 0xd1, 0x80, 0xb4, 0x00, 0xc0, 0x4f, 0xd4, 0x30, 0xc8]

/-- Hyphenated 8-4-4-4-12 rendering of 16 UUID bytes. -/
def uuidFormat (b : List Nat) : String :=
  bytesToHex (b.take 4) ++ "-" ++ bytesToHex ((b.drop 4).take 2) ++ "-" ++
  bytesToHex ((b.drop 6).take 2) ++ "-" ++ bytesToHex ((b.drop 8).take 2) ++ "-" ++
  bytesToHex (b.drop 10)

/-- str(uuid.uuid5(ns, name)): SHA-1 of namespace bytes plus the UTF-8 name,
truncated to 16 bytes, with the version nibble forced to 5 and the variant
bits forced to 10, rendered in lowercase hyphenated form. -/
def uuid5str (ns : List Nat) (name : String) : String :=
  let d := (sha1 (ns ++ utf8Bytes name)).take 16
  let d := d.set 6 (d.getD 6 0 % 16 + 80)
  let d := d.set 8 (d.getD 8 0 % 64 + 128)
  uuidFormat d

/-! ### Chunk identity (src/rag_in_aws/app/qdrant_chunker.py) -/

/-- Path(file_path).name: the last forward-slash component. -/
def pathName (s : String) : String := (s.splitOn "/").getLastD s

/-- The dict built by QdrantChunk.__init__ (qdrant_chunker.py lines 8-41):
id from _create_id, chunk_hash from _create_chunk_hash, relative_path
defaulting to the file name. -/
structure ChunkDict where
  id : String
  index : Nat
  file_hash : String
  chunk_hash : String
  content : String
  relative_path : String
deriving Repr, DecidableEq

/-- QdrantChunk construction with a caller-provided cached file hash, as done
by file_to_qdrant_chunks: the id is uuid5(NAMESPACE_DNS, file_hash + "_" + index). -/
def mkChunkDict (filePath content : String) (chunkIndex : Nat) (embeddingModel : String)
    (relativePath : Option String) (fileHash : String) : ChunkDict :=
  { id := uuid5str NAMESPACE_DNS (fileHash ++ "_" ++ toString chunkIndex)
    index := chunkIndex
    file_hash := fileHash
    chunk_hash := bytesToHex (sha256 (utf8Bytes content))
    content := content
    relative_path := relativePath.getD (pathName filePath) }

/-- _stream_hash_file (qdrant_chunker.py lines 59-74): the file is read in
64 KiB blocks, each fed to the incremental hasher; the digest of the
incremental hashlib hasher is the SHA-256 of the concatenated updates. -/
def streamHashFile (bytes : List Nat) : String :=
  bytesToHex (sha256 ((toBlocks 65536 bytes).foldl (fun acc b => acc ++ b) []))

/-- file_to_qdrant_chunks (qdrant_chunker.py lines 77-110) after the external
chunker returned chunkTexts: hash the file once by streaming, then build one
QdrantChunk per enumerated chunk, passing the cached hash. -/
def fileToQdrantChunks (fileBytes : List Nat) (chunkTexts : List String)
    (filePath embeddingModel : String) (relativePath : Option String) : List ChunkDict :=
  let fileHash := streamHashFile fileBytes
  chunkTexts.enum.map (fun ic => mkChunkDict filePath ic.2 ic.1 embeddingModel relativePath fileHash)

/-! ### Streaming hash agrees with whole-input SHA-256 -/

theorem toBlocksFuel_join {α : Type} (size : Nat) (hs : 1 ≤ size) :
    ∀ (fuel : Nat) (l : List α), l.length ≤ fuel → (toBlocksFuel size fuel l).flatten = l := by
  intro fuel
  induction fuel with
  | zero =>
    intro l hl
    have : l = [] := List.eq_nil_of_length_eq_zero (Nat.le_zero.mp hl)
    simp [this, toBlocksFuel]
  | succ n ih =>
    intro l hl
    match l with
    | [] => simp [toBlocksFuel]
    | x :: xs =>
      have hmax : max 1 size = size := Nat.max_eq_right hs
      have hdrop : ((x :: xs).drop (max 1 size)).length ≤ n := by
        simp only [List.length_drop, List.length_cons]
        simp only [List.length_cons] at hl
        omega
      simp only [toBlocksFuel, List.flatten_cons, ih _ hdrop]
      exact List.take_append_drop _ _

theorem foldl_append_eq_join (ls : List (List Nat)) :
    ∀ init : List Nat, ls.foldl (fun acc b => acc ++ b) init = init ++ ls.flatten := by
  induction ls with
  | nil => intro init; simp
  | cons x xs ih => intro init; simp [List.foldl_cons, ih, List.flatten_cons]

/-- Reading a file in 64 KiB blocks and updating an incremental SHA-256
hasher yields the SHA-256 of the whole file bytes. -/
theorem streamHashFile_eq_sha256 (bytes : List Nat) :
    streamHashFile bytes = bytesToHex (sha256 bytes) := by
  unfold streamHashFile toBlocks
  rw [foldl_append_eq_join, List.nil_append,
    toBlocksFuel_join 65536 (by omega) bytes.length bytes (Nat.le_refl _)]

/-- Claim C1: for every file and every chunk index i, the id attached to the
i-th chunk equals uuid5(NAMESPACE_DNS, hex(sha256(file_bytes)) + "_" + str(i)),
and the sequence of chunk ids depends only on the file bytes and the chunk
texts, not on the physical path, the embedding model or the logical path. -/
theorem chunk_id_stable (fileBytes : List Nat) (chunkTexts : List String)
    (fp fp' em em' : String) (rp rp' : Option String) (i : Nat)
    (h : i < chunkTexts.length) :
    ((fileToQdrantChunks fileBytes chunkTexts fp em rp)[i]?).map ChunkDict.id
      = some (uuid5str NAMESPACE_DNS (bytesToHex (sha256 fileBytes) ++ "_" ++ toString i))
    ∧ (fileToQdrantChunks fileBytes chunkTexts fp em rp).map ChunkDict.id
      = (fileToQdrantChunks fileBytes chunkTexts fp' em' rp').map ChunkDict.id := by
  constructor
  · simp only [fileToQdrantChunks, List.getElem?_map, List.getElem?_enum, mkChunkDict,
      streamHashFile_eq_sha256, List.getElem?_eq_getElem h, Option.map_some]
    rfl
  · simp only [fileToQdrantChunks, List.map_map]
    exact List.map_congr_left (fun ic _ => rfl)

/-- Witness for C1 at the file bytes of "hello" with a single chunk. -/
theorem chunk_id_stable_witness :
    0 < (["hello"] : List String).length ∧
    (((fileToQdrantChunks [104, 101, 108, 108, 111] ["hello"] "tmp/a.txt"
          "Qwen/Qwen3-Embedding-8B" (some "repo/a.txt"))[0]?).map ChunkDict.id
        = some (uuid5str NAMESPACE_DNS
            (bytesToHex (sha256 [104, 101, 108, 108, 111]) ++ "_" ++ toString 0))
      ∧ (fileToQdrantChunks [104, 101, 108, 108, 111] ["hello"] "tmp/a.txt"
            "Qwen/Qwen3-Embedding-8B" (some "repo/a.txt")).map ChunkDict.id
        = (fileToQdrantChunks [104, 101, 108, 108, 111] ["hello"] "b.txt"
            "other-model" none).map ChunkDict.id) :=
  ⟨by decide, chunk_id_stable [104, 101, 108, 108, 111] ["hello"] "tmp/a.txt" "b.txt"
    "Qwen/Qwen3-Embedding-8B" "other-model" (some "repo/a.txt") none 0 (by decide)⟩

/-! ### Validation of the primitives against published test vectors -/

set_option maxRecDepth 8192 in
/-- FIPS 180-4 test vector for SHA-256 of "abc". -/
theorem sha256_validation_abc :
    bytesToHex (sha256 (utf8Bytes "abc"))
      = "ba7816bf8f01cfea414140de5dae2223b00361a396177a9cb410ff61f20015ad" := by decide

set_option maxRecDepth 8192 in
/-- FIPS 180-4 test vector for SHA-1 of "abc". -/
theorem sha1_validation_abc :
    bytesToHex (sha1 (utf8Bytes "abc")) = "a9993e364706816aba3e25717850c26c9cd0d89d" := by decide

set_option maxRecDepth 8192 in
/-- End-to-end: the chunk id of the one-chunk file "hello" at index 0, as
computed by Python uuid.uuid5 over the sha256 hexdigest. -/
theorem chunk_id_validation_hello :
    (fileToQdrantChunks [104, 101, 108, 108, 111] ["hello"] "a.txt" "m" none).map ChunkDict.id
      = ["d9aa5c11-6223-5365-a8e3-e8541512be32"] := by decide

/-! ### Local-versus-remote comparison (src/rag_in_aws/app/handlers.py) -/

/-- A Python dict from logical path to content hash, in iteration order. -/
abbrev FileMap := List (String × String)

/-- The four lists produced by the comparison phase of _process_files_batch. -/
structure FileComparison where
  newFiles : List String
  modifiedFiles : List String
  unchangedFiles : List String
  deletedFiles : List String
deriving Repr, DecidableEq

/-- The local-versus-remote comparison of _process_files_batch (handlers.py
lines 241-268). The loop over local_files appends each path to exactly one
list: absent from remote_files (status new, line 247), present with a
different hash (status modified, line 254), present with an equal hash
(unchanged, line 259); each list therefore equals the filter of local_files
by the corresponding branch condition, in iteration order. The loop at
lines 265-268 collects remote files absent locally; the source runs it
unconditionally, with no use_prefix guard. -/
def compareFiles (localFiles remoteFiles : FileMap) : FileComparison :=
  { newFiles := (localFiles.filter (fun pl => (remoteFiles.lookup pl.1).isNone)).map Prod.fst
    modifiedFiles := (localFiles.filter (fun pl =>
        match remoteFiles.lookup pl.1 with
        | some rh => rh != pl.2
        | none => false)).map Prod.fst
    unchangedFiles := (localFiles.filter (fun pl =>
        match remoteFiles.lookup pl.1 with
        | some rh => rh == pl.2
        | none => false)).map Prod.fst
    deletedFiles := (remoteFiles.filter (fun pr => (localFiles.lookup pr.1).isNone)).map Prod.fst }

/-- files_needing_deletion (handlers.py lines 239, 258, 265-268): the
modified local files, then the remote files absent locally, in both
prefix-scoped and flat mode. -/
def filesNeedingDeletion (localFiles remoteFiles : FileMap) : List String :=
  (compareFiles localFiles remoteFiles).modifiedFiles
    ++ (compareFiles localFiles remoteFiles).deletedFiles

/-- files_to_chunk (handlers.py lines 247-257): the new and modified local
files with their status, in local iteration order. -/
def filesToChunk (localFiles remoteFiles : FileMap) : List (String × String) :=
  localFiles.filterMap (fun pl =>
    match remoteFiles.lookup pl.1 with
    | none => some (pl.1, "new")
    | some rh => if rh != pl.2 then some (pl.1, "modified") else none)

/-! ### Dictionary lookup lemmas -/

theorem lookup_cons (q : String × String) (rest : FileMap) (p : String) :
    (q :: rest).lookup p = if p = q.1 then some q.2 else rest.lookup p := by
  rcases q with ⟨k, v⟩
  by_cases h : p = k
  · simp [List.lookup, h]
  · have hb : (p == k) = false := beq_eq_false_iff_ne.mpr h
    simp [List.lookup, hb, h]

theorem lookup_eq_none_iff (m : FileMap) (p : String) :
    m.lookup p = none ↔ p ∉ m.map Prod.fst := by
  induction m with
  | nil => simp
  | cons q rest ih =>
    rw [lookup_cons]
    by_cases h : p = q.1
    · simp [h]
    · simp [h, ih]

theorem lookup_self_of_nodup (m : FileMap) (hm : (m.map Prod.fst).Nodup) :
    ∀ pl ∈ m, m.lookup pl.1 = some pl.2 := by
  induction m with
  | nil => simp
  | cons q rest ih =>
    have hq : q.1 ∉ rest.map Prod.fst := by
      simpa using (List.nodup_cons.mp hm).1
    intro pl hpl
    rw [lookup_cons]
    rcases List.mem_cons.mp hpl with rfl | hmem
    · simp
    · have hne : pl.1 ≠ q.1 := by
        intro he
        exact hq (he ▸ List.mem_map_of_mem Prod.fst hmem)
      rw [if_neg hne]
      exact ih (List.nodup_cons.mp hm).2 pl hmem

theorem mem_map_fst_filter_iff (m : FileMap) (hm : (m.map Prod.fst).Nodup)
    (f : String × String → Bool) (p : String) :
    p ∈ (m.filter f).map Prod.fst ↔ ∃ h, m.lookup p = some h ∧ f (p, h) = true := by
  induction m with
  | nil => simp
  | cons q rest ih =>
    obtain ⟨k, v⟩ := q
    have hq : k ∉ rest.map Prod.fst := by
      simpa using (List.nodup_cons.mp hm).1
    have hrest := ih (List.nodup_cons.mp hm).2
    have hsubset : (rest.filter f).map Prod.fst ⊆ rest.map Prod.fst :=
      List.map_subset Prod.fst (List.filter_sublist rest).subset
    rw [lookup_cons]
    by_cases hpq : p = k
    · subst hpq
      have hnotin : p ∉ (rest.filter f).map Prod.fst := fun hx => hq (hsubset hx)
      by_cases hf : f (p, v) = true
      · simp [List.filter_cons, hf, hnotin]
      · simp [List.filter_cons, hf, hnotin]
    · rw [if_neg hpq]
      by_cases hf : f (k, v) = true
      · simp [List.filter_cons, hf, hrest, hpq]
      · simp [List.filter_cons, hf, hrest]

/-! ### Membership characterizations of the four diff lists -/

theorem mem_newFiles_iff (lm rm : FileMap) (hl : (lm.map Prod.fst).Nodup) (p : String) :
    p ∈ (compareFiles lm rm).newFiles ↔ (∃ h, lm.lookup p = some h) ∧ rm.lookup p = none := by
  unfold compareFiles
  rw [mem_map_fst_filter_iff lm hl]
  simp [Option.isNone_iff_eq_none, exists_and_right]

theorem mem_modifiedFiles_iff (lm rm : FileMap) (hl : (lm.map Prod.fst).Nodup) (p : String) :
    p ∈ (compareFiles lm rm).modifiedFiles
      ↔ ∃ lh rh, lm.lookup p = some lh ∧ rm.lookup p = some rh ∧ lh ≠ rh := by
  unfold compareFiles
  rw [mem_map_fst_filter_iff lm hl]
  constructor
  · rintro ⟨h, hh, hf⟩
    rcases hr : rm.lookup p with _ | rh
    · rw [hr] at hf; simp at hf
    · rw [hr] at hf
      refine ⟨h, rh, hh, rfl, ?_⟩
      have hne : rh ≠ h := by simpa [bne_iff_ne] using hf
      exact hne.symm
  · rintro ⟨lh, rh, hlh, hrh, hne⟩
    refine ⟨lh, hlh, ?_⟩
    rw [hrh]
    simpa [bne_iff_ne] using hne.symm

theorem mem_unchangedFiles_iff (lm rm : FileMap) (hl : (lm.map Prod.fst).Nodup) (p : String) :
    p ∈ (compareFiles lm rm).unchangedFiles
      ↔ ∃ h, lm.lookup p = some h ∧ rm.lookup p = some h := by
  unfold compareFiles
  rw [mem_map_fst_filter_iff lm hl]
  constructor
  · rintro ⟨h, hh, hf⟩
    rcases hr : rm.lookup p with _ | rh
    · rw [hr] at hf; simp at hf
    · rw [hr] at hf
      have heq : rh = h := by simpa using hf
      subst heq
      exact ⟨rh, hh, rfl⟩
  · rintro ⟨h, hlh, hrh⟩
    refine ⟨h, hlh, ?_⟩
    rw [hrh]
    simp

theorem mem_deletedFiles_iff (lm rm : FileMap) (hr : (rm.map Prod.fst).Nodup) (p : String) :
    p ∈ (compareFiles lm rm).deletedFiles
      ↔ (∃ h, rm.lookup p = some h) ∧ lm.lookup p = none := by
  unfold compareFiles
  rw [mem_map_fst_filter_iff rm hr]
  simp [Option.isNone_iff_eq_none, exists_and_right]

/-- The amended diff statement for claim C2: the four output sets are
pairwise disjoint and together cover the union of the local and remote key
sets, with deleted equal to remote-minus-local in both modes. -/
def DiffPartition (lm rm : FileMap) : Prop :=
  (∀ p, ¬(p ∈ (compareFiles lm rm).newFiles ∧ p ∈ (compareFiles lm rm).modifiedFiles))
  ∧ (∀ p, ¬(p ∈ (compareFiles lm rm).newFiles ∧ p ∈ (compareFiles lm rm).unchangedFiles))
  ∧ (∀ p, ¬(p ∈ (compareFiles lm rm).newFiles ∧ p ∈ (compareFiles lm rm).deletedFiles))
  ∧ (∀ p, ¬(p ∈ (compareFiles lm rm).modifiedFiles ∧ p ∈ (compareFiles lm rm).unchangedFiles))
  ∧ (∀ p, ¬(p ∈ (compareFiles lm rm).modifiedFiles ∧ p ∈ (compareFiles lm rm).deletedFiles))
  ∧ (∀ p, ¬(p ∈ (compareFiles lm rm).unchangedFiles ∧ p ∈ (compareFiles lm rm).deletedFiles))
  ∧ (∀ p, p ∈ lm.map Prod.fst ∨ p ∈ rm.map Prod.fst
      ↔ p ∈ (compareFiles lm rm).newFiles ∨ p ∈ (compareFiles lm rm).modifiedFiles
        ∨ p ∈ (compareFiles lm rm).unchangedFiles ∨ p ∈ (compareFiles lm rm).deletedFiles)

/-- Claim C2 (amended): the comparison of _process_files_batch produces four
pairwise-disjoint sets partitioning keys(local) plus keys(remote); contrary
to the claim as stated, deleted is remote-minus-local in flat mode as well
(the source has no mode guard on the deletion scan). -/
theorem diff_partition (lm rm : FileMap)
    (hl : (lm.map Prod.fst).Nodup) (hr : (rm.map Prod.fst).Nodup) :
    DiffPartition lm rm := by
  have hmemL : ∀ p : String, p ∈ lm.map Prod.fst ↔ ∃ h, lm.lookup p = some h := by
    intro p
    rcases hlk : lm.lookup p with _ | h
    · simp [(lookup_eq_none_iff lm p).mp hlk]
    · have : p ∈ lm.map Prod.fst := by
        by_contra hc
        rw [(lookup_eq_none_iff lm p).mpr hc] at hlk
        cases hlk
      simp [this]
  have hmemR : ∀ p : String, p ∈ rm.map Prod.fst ↔ ∃ h, rm.lookup p = some h := by
    intro p
    rcases hlk : rm.lookup p with _ | h
    · simp [(lookup_eq_none_iff rm p).mp hlk]
    · have : p ∈ rm.map Prod.fst := by
        by_contra hc
        rw [(lookup_eq_none_iff rm p).mpr hc] at hlk
        cases hlk
      simp [this]
  refine ⟨?_, ?_, ?_, ?_, ?_, ?_, ?_⟩ <;> intro p <;>
    simp only [mem_newFiles_iff lm rm hl p, mem_modifiedFiles_iff lm rm hl p,
      mem_unchangedFiles_iff lm rm hl p, mem_deletedFiles_iff lm rm hr p, hmemL p, hmemR p] <;>
    rcases hlk : lm.lookup p with _ | lh <;> rcases hrk : rm.lookup p with _ | rh <;>
    simp [hlk, hrk, ne_comm] <;> by_cases he : lh = rh <;> simp [he]

/-- Witness for C2 on concrete two-entry maps exercising all four sets. -/
theorem diff_partition_witness :
    ((([("repo/a.txt", "h1"), ("repo/b.txt", "h2"), ("repo/c.txt", "h3")] : FileMap).map
        Prod.fst).Nodup
      ∧ (([("repo/b.txt", "h9"), ("repo/c.txt", "h3"), ("repo/d.txt", "h4")] : FileMap).map
        Prod.fst).Nodup)
    ∧ DiffPartition [("repo/a.txt", "h1"), ("repo/b.txt", "h2"), ("repo/c.txt", "h3")]
        [("repo/b.txt", "h9"), ("repo/c.txt", "h3"), ("repo/d.txt", "h4")] :=
  ⟨⟨by decide, by decide⟩,
    diff_partition _ _ (by decide) (by decide)⟩

/-- Counterexample for C2 as stated: with local {a} and remote {c} the
deleted list is ["c"], not empty, although _process_files_batch runs this
very comparison in flat (use_prefix=False) mode; the partition of
keys(local) with keys(remote) claimed for flat mode with an empty deleted
set is therefore not what the code computes. -/
theorem diff_flat_deleted_counterexample :
    (compareFiles [("a.txt", "h1")] [("c.txt", "h2")]).deletedFiles = ["c.txt"]
    ∧ filesNeedingDeletion [("a.txt", "h1")] [("c.txt", "h2")] = ["c.txt"]
    ∧ (["c.txt"] : List String) ≠ [] := by decide

/-! ### Streaming chunk-and-upload phase (handlers.py lines 299-378)

Phase 3 of _process_files_batch submits chunking tasks to a thread pool,
keeping at most max_pending = 100 futures outstanding, appends completed
chunk lists to a single accumulator, flushes (embeds and upserts) whenever
the accumulator reaches upload_threshold = 500, refills the pool, and
finally uploads any remainder. The coordinator loop body is sequential;
the only nondeterminism is which futures the wait call reports done, which
the model takes as a schedule of Boolean masks over the pending list. -/

/-- One chunking task: the file, its new/modified status, and the outcome
of chunk_file (none models success=False, a chunking exception). -/
structure ChunkTask (α : Type) where
  path : String
  status : String
  result : Option (List α)
deriving Repr, DecidableEq

/-- The coordinator state during the streaming loop. pending and rest
model pending_futures and the unconsumed file iterator; acc is
accumulated_chunks; uploads records each upload_chunks call; counts is
file_chunk_counts in insertion order. admitLens (accumulator length at each
append), maxPending (largest observed pending count) and admitted (all
chunks ever appended, in order) are observer fields for the theorems. -/
structure StreamState (α : Type) where
  pending : List (ChunkTask α)
  rest : List (ChunkTask α)
  acc : List α
  uploads : List (List α)
  counts : List (String × String × Nat)
  admitLens : List Nat
  maxPending : Nat
  admitted : List α
deriving Repr, DecidableEq

/-- Handling one completed future (handlers.py lines 347-364): on success
with a non-empty chunk list, extend the accumulator and record the count;
then, if the accumulator has reached 500 chunks, upload it and clear it. -/
def processCompletedTask {α : Type} (st : StreamState α) (t : ChunkTask α) : StreamState α :=
  match t.result with
  | none => st
  | some chunks =>
    if chunks.isEmpty then st
    else
      let st1 := { st with
        admitLens := st.admitLens ++ [st.acc.length]
        acc := st.acc ++ chunks
        admitted := st.admitted ++ chunks
        counts := st.counts ++ [(t.path, t.status, chunks.length)] }
      if 500 ≤ st1.acc.length then
        { st1 with uploads := st1.uploads ++ [st1.acc], acc := [] }
      else st1

/-- Split the pending list into the tasks the wait call reported done and
the tasks still pending, according to a Boolean mask (missing entries mean
not done). -/
def selectByMask {α : Type} : List Bool → List (ChunkTask α) → List (ChunkTask α) × List (ChunkTask α)
  | _, [] => ([], [])
  | [], ts => ([], ts)
  | b :: bs, t :: ts =>
    let dk := selectByMask bs ts
    if b then (t :: dk.1, dk.2) else (dk.1, t :: dk.2)

/-- One iteration of the while loop (handlers.py lines 343-373): wait for at
least one completed future (the mask, corrected to the first pending task
if it selects none), process each completed future in order, then submit
new tasks until 100 futures are pending again or the iterator is drained. -/
def streamStep {α : Type} (mask : List Bool) (st : StreamState α) : StreamState α :=
  match st.pending with
  | [] => st
  | p :: ps =>
    let st0 := { st with maxPending := max st.maxPending (p :: ps).length }
    let dk0 := selectByMask mask (p :: ps)
    let dk := if dk0.1.isEmpty then ([p], ps) else dk0
    let st1 := dk.1.foldl processCompletedTask { st0 with pending := dk.2 }
    let need := 100 - st1.pending.length
    { st1 with pending := st1.pending ++ st1.rest.take need, rest := st1.rest.drop need }

/-- The while loop with explicit fuel (one unit per iteration; each
iteration retires at least one task, so the number of tasks is enough). -/
def streamLoop {α : Type} : Nat → List (List Bool) → StreamState α → StreamState α
  | 0, _, st => st
  | fuel + 1, sched, st =>
    if st.pending.isEmpty then st
    else streamLoop fuel sched.tail (streamStep (sched.headD []) st)

/-- The whole streaming phase (handlers.py lines 299-378): submit the first
min(100, n) tasks, run the loop to completion, then upload any remaining
accumulated chunks. -/
def runStreaming {α : Type} (tasks : List (ChunkTask α)) (sched : List (List Bool)) :
    StreamState α :=
  let st0 : StreamState α := ⟨tasks.take 100, tasks.drop 100, [], [], [], [], 0, []⟩
  let stEnd := streamLoop tasks.length sched st0
  if stEnd.acc.isEmpty then stEnd
  else { stEnd with uploads := stEnd.uploads ++ [stEnd.acc], acc := [] }

/-! ### Invariants of the streaming loop -/

/-- The loop invariant: the accumulator stays below the upload threshold
between completions, the pending pool and its running maximum stay within
max_pending, every recorded admission happened below the threshold, and the
flushed uploads plus the accumulator account for every admitted chunk. -/
def StreamInv {α : Type} (st : StreamState α) : Prop :=
  st.acc.length < 500 ∧ st.pending.length ≤ 100 ∧ st.maxPending ≤ 100
  ∧ st.uploads.flatten ++ st.acc = st.admitted
  ∧ (∀ l ∈ st.admitLens, l < 500)

theorem processCompletedTask_frame {α : Type} (st : StreamState α) (t : ChunkTask α) :
    (processCompletedTask st t).pending = st.pending
    ∧ (processCompletedTask st t).rest = st.rest
    ∧ (processCompletedTask st t).maxPending = st.maxPending := by
  unfold processCompletedTask
  rcases t.result with _ | chunks
  · exact ⟨rfl, rfl, rfl⟩
  · by_cases he : chunks.isEmpty
    · simp [he]
    · by_cases hlen : 500 ≤ st.acc.length + chunks.length <;>
        simp [he, hlen]

theorem processCompletedTask_inv {α : Type} (st : StreamState α) (t : ChunkTask α)
    (hacc : st.acc.length < 500)
    (hjoin : st.uploads.flatten ++ st.acc = st.admitted)
    (hlens : ∀ l ∈ st.admitLens, l < 500) :
    (processCompletedTask st t).acc.length < 500
    ∧ (processCompletedTask st t).uploads.flatten ++ (processCompletedTask st t).acc
        = (processCompletedTask st t).admitted
    ∧ (∀ l ∈ (processCompletedTask st t).admitLens, l < 500) := by
  unfold processCompletedTask
  rcases t.result with _ | chunks
  · exact ⟨hacc, hjoin, hlens⟩
  · by_cases he : chunks.isEmpty
    · simp only [he, ite_true]
      exact ⟨hacc, hjoin, hlens⟩
    · by_cases hlen : 500 ≤ st.acc.length + chunks.length
      · simp only [he, Bool.false_eq_true, ite_false, List.length_append, hlen, ite_true]
        refine ⟨by simp, ?_, ?_⟩
        · simp [← hjoin]
        · intro l hl
          rcases List.mem_append.mp hl with hl | hl
          · exact hlens l hl
          · simp at hl
            omega
      · have hc : ¬ 500 ≤ (st.acc ++ chunks).length := by
          simpa [List.length_append] using hlen
        simp only [he, Bool.false_eq_true, ite_false, if_neg hc]
        refine ⟨by simp only [List.length_append]; omega, ?_, ?_⟩
        · simp [← hjoin]
        · intro l hl
          rcases List.mem_append.mp hl with hl | hl
          · exact hlens l hl
          · simp at hl
            omega

theorem foldl_processCompletedTask_frame {α : Type} (done : List (ChunkTask α)) :
    ∀ st : StreamState α,
      (done.foldl processCompletedTask st).pending = st.pending
      ∧ (done.foldl processCompletedTask st).rest = st.rest
      ∧ (done.foldl processCompletedTask st).maxPending = st.maxPending := by
  induction done with
  | nil => intro st; exact ⟨rfl, rfl, rfl⟩
  | cons t ts ih =>
    intro st
    obtain ⟨f1, f2, f3⟩ := processCompletedTask_frame st t
    obtain ⟨g1, g2, g3⟩ := ih (processCompletedTask st t)
    exact ⟨g1.trans f1, g2.trans f2, g3.trans f3⟩

theorem foldl_processCompletedTask_inv {α : Type} (done : List (ChunkTask α)) :
    ∀ st : StreamState α, st.acc.length < 500 →
      st.uploads.flatten ++ st.acc = st.admitted →
      (∀ l ∈ st.admitLens, l < 500) →
      ((done.foldl processCompletedTask st).acc.length < 500
       ∧ (done.foldl processCompletedTask st).uploads.flatten
           ++ (done.foldl processCompletedTask st).acc
           = (done.foldl processCompletedTask st).admitted
       ∧ (∀ l ∈ (done.foldl processCompletedTask st).admitLens, l < 500)) := by
  induction done with
  | nil => intro st h1 h2 h3; exact ⟨h1, h2, h3⟩
  | cons t ts ih =>
    intro st h1 h2 h3
    obtain ⟨g1, g2, g3⟩ := processCompletedTask_inv st t h1 h2 h3
    exact ih _ g1 g2 g3

theorem selectByMask_lengths {α : Type} :
    ∀ (bs : List Bool) (ts : List (ChunkTask α)),
      (selectByMask bs ts).1.length + (selectByMask bs ts).2.length = ts.length := by
  intro bs
  induction bs with
  | nil => intro ts; cases ts <;> simp [selectByMask]
  | cons b bs ih =>
    intro ts
    cases ts with
    | nil => simp [selectByMask]
    | cons t ts2 =>
      have := ih ts2
      by_cases hb : b <;> simp [selectByMask, hb] <;> omega

theorem streamStep_inv {α : Type} (mask : List Bool) (st : StreamState α)
    (h : StreamInv st) : StreamInv (streamStep mask st) := by
  unfold streamStep
  rcases hp : st.pending with _ | ⟨p, ps⟩
  · exact h
  · obtain ⟨h1, h2, h3, h4, h5⟩ := h
    have hps : (p :: ps).length ≤ 100 := hp ▸ h2
    dsimp only
    set dk0 := selectByMask mask (p :: ps) with hdk0
    set dk := if dk0.1.isEmpty then (([p], ps) : List (ChunkTask α) × List (ChunkTask α)) else dk0
      with hdk
    have hk2 : dk.2.length ≤ (p :: ps).length := by
      rw [hdk]
      split
      · simp
      · have hlen := selectByMask_lengths mask (p :: ps)
        rw [← hdk0] at hlen
        omega
    set stIn : StreamState α :=
      { st with pending := dk.2, maxPending := max st.maxPending (p :: ps).length } with hstIn
    set st1 := dk.1.foldl processCompletedTask stIn with hst1
    obtain ⟨f1, f2, f3⟩ := foldl_processCompletedTask_frame dk.1 stIn
    rw [← hst1] at f1 f2 f3
    obtain ⟨g1, g2, g3⟩ := foldl_processCompletedTask_inv dk.1 stIn h1 h4 h5
    rw [← hst1] at g1 g2 g3
    refine ⟨g1, ?_, ?_, g2, g3⟩
    · simp only [List.length_append, List.length_take]
      rw [f1]
      have : stIn.pending = dk.2 := rfl
      rw [this]
      omega
    · rw [f3]
      have : stIn.maxPending = max st.maxPending (p :: ps).length := rfl
      rw [this]
      exact Nat.max_le.mpr ⟨h3, hps⟩

theorem streamLoop_inv {α : Type} :
    ∀ (fuel : Nat) (sched : List (List Bool)) (st : StreamState α),
      StreamInv st → StreamInv (streamLoop fuel sched st) := by
  intro fuel
  induction fuel with
  | zero => intro _ st h; exact h
  | succ n ih =>
    intro sched st h
    unfold streamLoop
    by_cases hp : st.pending.isEmpty = true
    · rw [if_pos hp]; exact h
    · rw [if_neg hp]
      exact ih _ _ (streamStep_inv _ _ h)

theorem streamStep_measure {α : Type} (mask : List Bool) (st : StreamState α)
    (hp : st.pending ≠ []) :
    (streamStep mask st).pending.length + (streamStep mask st).rest.length + 1
      ≤ st.pending.length + st.rest.length := by
  unfold streamStep
  rcases hps : st.pending with _ | ⟨p, ps⟩
  · exact absurd hps hp
  · dsimp only
    set dk0 := selectByMask mask (p :: ps) with hdk0
    set dk := if dk0.1.isEmpty then (([p], ps) : List (ChunkTask α) × List (ChunkTask α)) else dk0
      with hdk
    have hd : 1 ≤ dk.1.length ∧ dk.1.length + dk.2.length = (p :: ps).length := by
      rw [hdk]
      split
      · exact ⟨by simp, by simp [Nat.add_comm]⟩
      · rename_i hne
        have hlen := selectByMask_lengths mask (p :: ps)
        rw [← hdk0] at hlen
        have : dk0.1 ≠ [] := by simpa [List.isEmpty_iff] using hne
        have : 1 ≤ dk0.1.length := List.length_pos.mpr this
        omega
    set stIn : StreamState α :=
      { st with pending := dk.2, maxPending := max st.maxPending (p :: ps).length } with hstIn
    set st1 := dk.1.foldl processCompletedTask stIn with hst1
    obtain ⟨f1, f2, _⟩ := foldl_processCompletedTask_frame dk.1 stIn
    rw [← hst1] at f1 f2
    simp only [List.length_append, List.length_take, List.length_drop, f1, f2]
    simp only [List.length_cons] at hd ⊢
    omega

theorem streamStep_rest_empty {α : Type} (mask : List Bool) (st : StreamState α)
    (hp : st.pending ≠ []) (h : (streamStep mask st).pending = []) :
    (streamStep mask st).rest = [] := by
  unfold streamStep at h ⊢
  rcases hps : st.pending with _ | ⟨p, ps⟩
  · exact absurd hps hp
  · rw [hps] at h
    dsimp only at h ⊢
    set dk0 := selectByMask mask (p :: ps) with hdk0
    set dk := if dk0.1.isEmpty then (([p], ps) : List (ChunkTask α) × List (ChunkTask α)) else dk0
      with hdk
    set stIn : StreamState α :=
      { st with pending := dk.2, maxPending := max st.maxPending (p :: ps).length } with hstIn
    set st1 := dk.1.foldl processCompletedTask stIn with hst1
    obtain ⟨f1, f2, _⟩ := foldl_processCompletedTask_frame dk.1 stIn
    rw [← hst1] at f1 f2
    have hsplit := List.append_eq_nil.mp h
    have htake : st1.rest.take (100 - st1.pending.length) = [] := hsplit.2
    have hpz : st1.pending.length = 0 := by
      rw [hsplit.1]
      rfl
    rw [hpz] at htake
    have hrest0 : st1.rest = [] := by
      rcases List.take_eq_nil_iff.mp htake with hc | hc
      · exact absurd hc (by omega)
      · exact hc
    rw [hrest0]
    exact List.drop_nil

theorem streamLoop_drains {α : Type} :
    ∀ (fuel : Nat) (sched : List (List Bool)) (st : StreamState α),
      st.pending.length + st.rest.length ≤ fuel →
      (st.pending = [] → st.rest = []) →
      (streamLoop fuel sched st).pending = [] ∧ (streamLoop fuel sched st).rest = [] := by
  intro fuel
  induction fuel with
  | zero =>
    intro _ st hle hpr
    have hpend : st.pending = [] := by
      have := st.pending.length
      exact List.eq_nil_of_length_eq_zero (by omega)
    exact ⟨hpend, hpr hpend⟩
  | succ n ih =>
    intro sched st hle hpr
    unfold streamLoop
    by_cases hp : st.pending.isEmpty = true
    · rw [if_pos hp]
      have hpend : st.pending = [] := by simpa [List.isEmpty_iff] using hp
      exact ⟨hpend, hpr hpend⟩
    · rw [if_neg hp]
      have hne : st.pending ≠ [] := by simpa [List.isEmpty_iff] using hp
      have hm := streamStep_measure (sched.headD []) st hne
      exact ih sched.tail _ (by omega) (streamStep_rest_empty (sched.headD []) st hne)

/-- Claim C6: throughout the streaming phase the number of pending chunking
tasks never exceeds MAX_PENDING = 100; every append to the accumulator finds
it holding fewer than UPLOAD_THRESHOLD = 500 chunks (it is flushed and
cleared whenever it reaches 500, before further chunks are admitted); and at
the end of input every admitted chunk has been uploaded (the flushes plus
the final drain cover the accumulator exactly), with the loop consuming all
tasks. -/
theorem streaming_bounds {α : Type} (tasks : List (ChunkTask α)) (sched : List (List Bool)) :
    (runStreaming tasks sched).maxPending ≤ 100
    ∧ (∀ l ∈ (runStreaming tasks sched).admitLens, l < 500)
    ∧ (runStreaming tasks sched).uploads.flatten = (runStreaming tasks sched).admitted
    ∧ (runStreaming tasks sched).acc = []
    ∧ (runStreaming tasks sched).pending = []
    ∧ (runStreaming tasks sched).rest = [] := by
  unfold runStreaming
  dsimp only
  have hinv0 : StreamInv (⟨tasks.take 100, tasks.drop 100, [], [], [], [], 0, []⟩ :
      StreamState α) := by
    refine ⟨by simp, ?_, by simp, by simp, by simp⟩
    simp only [List.length_take]
    omega
  set st0 : StreamState α := ⟨tasks.take 100, tasks.drop 100, [], [], [], [], 0, []⟩ with hst0
  have hinv := streamLoop_inv tasks.length sched st0 hinv0
  have hdrain := streamLoop_drains tasks.length sched st0
    (by
      have e1 : st0.pending = tasks.take 100 := rfl
      have e2 : st0.rest = tasks.drop 100 := rfl
      rw [e1, e2]
      simp only [List.length_take, List.length_drop]
      omega)
    (by
      intro hp
      have e1 : st0.pending = tasks.take 100 := rfl
      have e2 : st0.rest = tasks.drop 100 := rfl
      rw [e1] at hp
      rw [e2]
      rcases List.take_eq_nil_iff.mp hp with hc | hc
      · exact absurd hc (by omega)
      · simp [hc])
  set stE := streamLoop tasks.length sched st0 with hstE
  obtain ⟨i1, i2, i3, i4, i5⟩ := hinv
  by_cases hacc : stE.acc.isEmpty = true
  · rw [if_pos hacc]
    have haccnil : stE.acc = [] := by simpa [List.isEmpty_iff] using hacc
    refine ⟨i3, i5, ?_, haccnil, hdrain.1, hdrain.2⟩
    rw [← i4, haccnil, List.append_nil]
  · rw [if_neg hacc]
    refine ⟨i3, i5, ?_, rfl, hdrain.1, hdrain.2⟩
    simp only [List.flatten_append, List.flatten_cons, List.flatten_nil, List.append_nil]
    exact i4

/-- Python str.startswith, evaluated character-wise (String.startsWith has
the same meaning but does not reduce in the kernel). -/
def strStartsWith (s pre : String) : Bool := List.isPrefixOf pre.toList s.toList

/-! ### _process_files_batch end to end (handlers.py lines 181-397) -/

/-- The externally visible effects and statistics of one
_process_files_batch run. deleteBatches records each _delete_points call of
phase 2 (one entry per non-empty batch of point ids); uploads records each
upload_chunks call of phase 3; added, modified and unchanged are the
aggregated statistics of the result list (lines 380-397). -/
structure BatchResult (α : Type) where
  deleteBatches : List (List String)
  uploads : List (List α)
  added : List (String × Nat)
  modified : List (String × Nat)
  unchanged : List (String × Nat)
deriving Repr, DecidableEq

/-- _process_files_batch after the parallel-hashing phase: localFiles and
remoteFiles are the two path-to-hash maps compared in phase 1; pointIds
models get_point_ids_for_file, chunkResult the outcome of chunk_file per
path (none for a chunking error), and sched the thread-pool completion
schedule. usePfx is accepted as in the source; phases 2 and 3 do not
consult it (which is why flat mode also deletes). Phase 2 (lines 277-297)
walks files_needing_deletion in batches of at most 100 files, collects
their point ids and issues one delete per non-empty batch. Phase 3 is
runStreaming. Unchanged files are reported with a chunk count of 0
(line 394). -/
def processFilesBatchModel {α : Type} (usePfx : Bool) (localFiles remoteFiles : FileMap)
    (pointIds : String → List String) (chunkResult : String → Option (List α))
    (sched : List (List Bool)) : BatchResult α :=
  let needDel := filesNeedingDeletion localFiles remoteFiles
  let delBatches := ((toBlocks 100 needDel).map (fun b => b.flatMap pointIds)).filter
    (fun ids => !ids.isEmpty)
  let tasks := (filesToChunk localFiles remoteFiles).map
    (fun ps => ChunkTask.mk ps.1 ps.2 (chunkResult ps.1))
  let stEnd := runStreaming tasks sched
  { deleteBatches := delBatches
    uploads := stEnd.uploads
    added := stEnd.counts.filterMap
      (fun c => if c.2.1 == "new" then some (c.1, c.2.2) else none)
    modified := stEnd.counts.filterMap
      (fun c => if c.2.1 == "new" then none else some (c.1, c.2.2))
    unchanged := (compareFiles localFiles remoteFiles).unchangedFiles.map (fun p => (p, 0)) }

/-! ### Qdrant collection scan and sync planning
(src/rag_in_aws/app/qdrant_manager.py) -/

/-- A stored point as seen by the scroll: its id and the file_path and
parent_file_hash payload fields, absent on the collection-metadata point. -/
structure QPoint where
  id : String
  filePathPayload : Option String
  parentFileHashPayload : Option String
deriving Repr, DecidableEq

/-- The reserved all-zeros collection-metadata point: its payload carries
only _collection_metadata, embedding_model, vector_size and distance, so
payload.get("file_path") and payload.get("parent_file_hash") are absent. -/
def metadataPoint : QPoint :=
  { id := "00000000-0000-0000-0000-000000000000"
    filePathPayload := none
    parentFileHashPayload := none }

/-- QdrantManager._get_files_by_prefix (qdrant_manager.py lines 369-414):
scroll every point, read payload.get("file_path", "") and keep the point
when that string starts with the prefix; the first occurrence of a path
fixes its hash (payload.get("parent_file_hash", "")) and every occurrence
appends its point id. There is no exclusion of the metadata point: an empty
prefix admits the empty file_path it defaults to. -/
def getFilesByPfx (points : List QPoint) (pfx : String) :
    List (String × String × List String) :=
  points.foldl (fun files pt =>
    let fp := pt.filePathPayload.getD ""
    if strStartsWith fp pfx then
      if (files.lookup fp).isSome then
        files.map (fun e => if e.1 == fp then (e.1, e.2.1, e.2.2 ++ [pt.id]) else e)
      else files ++ [(fp, pt.parentFileHashPayload.getD "", [pt.id])]
    else files) []

/-- The operation plan computed by QdrantManager._sync_files
(qdrant_manager.py lines 711-731): point ids of remote files absent from
the source are deleted, remote files with a changed hash are updated, and
source files absent remotely are added. The deletion loop has no mode
guard: it runs for the empty prefix (sync_file, flat mode) as well. -/
structure SyncPlan where
  toDelete : List String
  toUpdate : List String
  toAdd : List String
deriving Repr, DecidableEq

def syncFilesPlan (currentFiles : FileMap)
    (qdrantFiles : List (String × String × List String)) : SyncPlan :=
  { toDelete := (qdrantFiles.filter
      (fun q => (currentFiles.lookup q.1).isNone)).flatMap (fun q => q.2.2)
    toUpdate := (qdrantFiles.filter (fun q =>
      match currentFiles.lookup q.1 with
      | some h => h != q.2.1
      | none => false)).map Prod.fst
    toAdd := (currentFiles.filter (fun c => (qdrantFiles.lookup c.1).isNone)).map Prod.fst }

/-- Claim C3 (code bug): a flat-mode sync does issue point deletions. With
local source {a.txt} and remote collection {c.txt}, _process_files_batch in
use_prefix=False mode queues c.txt for deletion and deletes its points, and
_sync_files with the empty prefix of sync_file does the same; the claim,
the spec and the docstring of RepoHandler._process_directory ("For archives
(use_prefix=False): No deletion") all say flat mode never deletes. -/
theorem flat_mode_deletion_code_bug :
    (processFilesBatchModel (α := Unit) false [("a.txt", "h1")] [("c.txt", "h2")]
        (fun p => if p == "c.txt" then ["c1"] else []) (fun _ => none) []).deleteBatches
      = [["c1"]]
    ∧ (syncFilesPlan [("a.txt", "h1")]
        (getFilesByPfx [⟨"p1", some "c.txt", some "h2"⟩] "")).toDelete = ["p1"]
    ∧ ([["c1"]] : List (List String)) ≠ [] := by decide

/-- Claim C4 (code bug): the all-zeros metadata point is excluded from a
prefix-scoped scan only because its defaulted file_path "" does not start
with a non-empty prefix; under the empty prefix of a flat scan it is
returned in the remote file map under the key "", and _sync_files then
selects it for deletion because "" is never a source path. -/
theorem metadata_point_leak_code_bug :
    (getFilesByPfx [metadataPoint] "").lookup ""
      = some ("", ["00000000-0000-0000-0000-000000000000"])
    ∧ getFilesByPfx [metadataPoint] "repo/" = []
    ∧ (syncFilesPlan [("a.txt", "h1")] (getFilesByPfx [metadataPoint] "")).toDelete
      = ["00000000-0000-0000-0000-000000000000"] := by decide

theorem runStreaming_nil {α : Type} (sched : List (List Bool)) :
    runStreaming ([] : List (ChunkTask α)) sched = ⟨[], [], [], [], [], [], 0, []⟩ := rfl

/-- Claim C5 (amended): re-running _process_files_batch against an unchanged
source (remote map equal to the local map) issues no deletion and no
upload or embedding call, reports no added and no modified files, and lists
every file as unchanged -- but with a chunk count of 0 (handlers.py line
394), not with its stored chunk count. -/
theorem resync_unchanged {α : Type} (lm : FileMap) (hl : (lm.map Prod.fst).Nodup)
    (pointIds : String → List String) (chunkResult : String → Option (List α))
    (sched : List (List Bool)) (usePfx : Bool) :
    processFilesBatchModel usePfx lm lm pointIds chunkResult sched
      = ⟨[], [], [], [], lm.map (fun pl => (pl.1, 0))⟩ := by
  have hself := lookup_self_of_nodup lm hl
  have hfilterNone : lm.filter (fun pl => (lm.lookup pl.1).isNone) = [] := by
    rw [List.filter_eq_nil_iff]
    intro pl hpl
    simp [hself pl hpl]
  have hmod : lm.filter (fun pl =>
      match lm.lookup pl.1 with
      | some rh => rh != pl.2
      | none => false) = [] := by
    rw [List.filter_eq_nil_iff]
    intro pl hpl
    simp [hself pl hpl]
  have hunch : lm.filter (fun pl =>
      match lm.lookup pl.1 with
      | some rh => rh == pl.2
      | none => false) = lm := by
    rw [List.filter_eq_self]
    intro pl hpl
    simp [hself pl hpl]
  have htoChunk : filesToChunk lm lm = [] := by
    unfold filesToChunk
    rw [List.filterMap_eq_nil_iff]
    intro pl hpl
    simp [hself pl hpl]
  have hdel : filesNeedingDeletion lm lm = [] := by
    unfold filesNeedingDeletion compareFiles
    dsimp only
    rw [hmod, hfilterNone]
    rfl
  have hunch2 : (compareFiles lm lm).unchangedFiles = lm.map Prod.fst := by
    unfold compareFiles
    dsimp only
    rw [hunch]
  unfold processFilesBatchModel
  dsimp only
  rw [hdel, htoChunk, hunch2]
  simp only [List.map_nil, runStreaming_nil, List.filterMap_nil, List.filter_nil,
    List.map_map]
  rfl

/-- Witness for C5 on a two-file repository map. -/
theorem resync_unchanged_witness :
    (([("repo/a.txt", "h1"), ("repo/b.txt", "h2")] : FileMap).map Prod.fst).Nodup
    ∧ processFilesBatchModel (α := Unit) true [("repo/a.txt", "h1"), ("repo/b.txt", "h2")]
        [("repo/a.txt", "h1"), ("repo/b.txt", "h2")] (fun _ => []) (fun _ => none) []
      = ⟨[], [], [], [],
          ([("repo/a.txt", "h1"), ("repo/b.txt", "h2")] : FileMap).map (fun pl => (pl.1, 0))⟩ :=
  ⟨by decide,
    resync_unchanged [("repo/a.txt", "h1"), ("repo/b.txt", "h2")] (by decide)
      (fun _ => []) (fun _ => none) [] true⟩

/-- Counterexample for C5 as stated: a file previously synced with one chunk
is reported on re-sync as ("repo/a.txt", 0), not with its chunk count 1. -/
theorem resync_chunk_count_counterexample :
    (processFilesBatchModel (α := Unit) true [("repo/a.txt", "h1")] [("repo/a.txt", "h1")]
        (fun _ => []) (fun _ => none) []).unchanged = [("repo/a.txt", 0)]
    ∧ ([("repo/a.txt", (0 : Nat))] : List (String × Nat)) ≠ [("repo/a.txt", 1)] := by decide

/-! ### Embedder retry loop (src/rag_in_aws/app/embedder.py lines 20-65 and
src/rag_embedder/app/embedder.py lines 39-92) -/

/-- The response of the provider to one attempt: a vector, or a
requests.RequestException (connection error, timeout, or an HTTP error such
as 401 raised by raise_for_status, whose status is carried when present).
Both embedder variants catch exactly this class. -/
inductive EmbedResp (α : Type) where
  | ok (v : α)
  | reqErr (status : Option Nat)
deriving Repr, DecidableEq

/-- The observable behaviour of one get_embedding call: how many attempts
were made, the back-off sleeps between them, and the surfaced outcome. -/
structure EmbedRun (α : Type) where
  attempts : Nat
  sleeps : List Nat
  outcome : EmbedResp α
deriving Repr, DecidableEq

/-- The retry loop: for attempt in range(3): try the request and return on
success; on a RequestException, if attempts remain sleep
retry_delay * 2 ** attempt (retry_delay = 2) and retry, else re-raise. -/
def embedLoop {α : Type} (oracle : Nat → EmbedResp α) :
    Nat → Nat → List Nat → EmbedRun α
  | 0, attempt, sleeps => ⟨attempt, sleeps, .reqErr none⟩
  | fuel + 1, attempt, sleeps =>
    match oracle attempt with
    | .ok v => ⟨attempt + 1, sleeps, .ok v⟩
    | .reqErr s =>
      if attempt < 3 - 1 then embedLoop oracle fuel (attempt + 1) (sleeps ++ [2 * 2 ^ attempt])
      else ⟨attempt + 1, sleeps, .reqErr s⟩

/-- Embedder.get_embedding / get_embeddings_batch with max_retries = 3 and
retry_delay = 2, driven by the per-attempt responses. -/
def getEmbeddingRun {α : Type} (oracle : Nat → EmbedResp α) : EmbedRun α :=
  embedLoop oracle 3 0 []

/-- Claim C7 (amended): every embedding request is attempted at most 3
times with exponential back-off sleeping 2 s then 4 s; the first success is
returned; after the third failed attempt the error is re-raised. Contrary
to the claim as stated, a 401 response is an HTTPError and hence a
RequestException, which the except clause retries like a timeout: no
response is terminal before the attempts are exhausted. -/
theorem embedder_retry_behavior {α : Type} (oracle : Nat → EmbedResp α) :
    getEmbeddingRun oracle =
      match oracle 0 with
      | .ok v => ⟨1, [], .ok v⟩
      | .reqErr _ =>
        match oracle 1 with
        | .ok v => ⟨2, [2], .ok v⟩
        | .reqErr _ =>
          match oracle 2 with
          | .ok v => ⟨3, [2, 4], .ok v⟩
          | .reqErr s => ⟨3, [2, 4], .reqErr s⟩ := by
  rcases h0 : oracle 0 with v0 | s0 <;> rcases h1 : oracle 1 with v1 | s1 <;>
    rcases h2 : oracle 2 with v2 | s2 <;>
    simp [getEmbeddingRun, embedLoop, h0, h1, h2]

/-- Counterexample for C7 as stated: an embedder answering 401 on every
attempt is retried twice (sleeping 2 s and 4 s) and surfaces the error only
after 3 attempts, whereas the claim says a 401 is terminal and not
retried. -/
theorem embedder_401_retried_counterexample :
    getEmbeddingRun (α := Unit) (fun _ => .reqErr (some 401))
      = ⟨3, [2, 4], .reqErr (some 401)⟩
    ∧ (3 : Nat) ≠ 1 := by decide

/-! ### Collection creation (qdrant_manager.py lines 71-113) -/

/-- The state of one named collection: whether it exists, and the payload
of its metadata point when that point has been upserted. -/
structure CollState where
  present : Bool
  metadata : Option (String × Nat × String)
deriving Repr, DecidableEq

/-- QdrantManager.create_collection: raise if the collection exists;
otherwise create it, then upsert the zero-id metadata point carrying
(embedding_model, vector_size, distance). The upsert may fail (upsertOk);
the source has no rollback, so on failure the exception propagates and the
collection is left existing without its metadata point. -/
def createCollectionModel (st : CollState) (embeddingModel : String) (vectorSize : Nat)
    (dist : String) (upsertOk : Bool) : Except String Unit × CollState :=
  if st.present then (.error "already exists", st)
  else
    let created : CollState := { present := true, metadata := none }
    if upsertOk then (.ok (), { created with metadata := some (embeddingModel, vectorSize, dist) })
    else (.error "metadata upsert failed", created)

/-- Claim C8 (amended): create_collection raises when the collection exists
and changes nothing; otherwise it creates the collection and upserts the
metadata point with the model, vector size and distance; if that upsert
fails, the error propagates and the collection is left existing without a
metadata point -- it is not deleted. -/
theorem create_collection_no_rollback (st : CollState) (em : String) (vs : Nat)
    (dist : String) (ok : Bool) :
    (st.present = true → createCollectionModel st em vs dist ok = (.error "already exists", st))
    ∧ (st.present = false → ok = true →
        createCollectionModel st em vs dist ok = (.ok (), ⟨true, some (em, vs, dist)⟩))
    ∧ (st.present = false → ok = false →
        createCollectionModel st em vs dist ok
          = (.error "metadata upsert failed", ⟨true, none⟩)) := by
  rcases st with ⟨p, m⟩
  cases p <;> cases ok <;> simp [createCollectionModel]

/-- Witness for C8 at a fresh collection with a successful upsert. -/
theorem create_collection_no_rollback_witness :
    ((false : Bool) = false) ∧ ((true : Bool) = true)
    ∧ createCollectionModel ⟨false, none⟩ "Qwen/Qwen3-Embedding-8B" 4096 "Cosine" true
      = (.ok (), ⟨true, some ("Qwen/Qwen3-Embedding-8B", 4096, "Cosine")⟩) :=
  ⟨rfl, rfl,
    (create_collection_no_rollback ⟨false, none⟩ "Qwen/Qwen3-Embedding-8B" 4096 "Cosine"
      true).2.1 rfl rfl⟩

/-- Counterexample for C8 as stated: when the metadata upsert fails, the
just-created collection is not deleted -- the final state has the
collection existing with no metadata point. -/
theorem create_collection_rollback_counterexample :
    (createCollectionModel ⟨false, none⟩ "Qwen/Qwen3-Embedding-8B" 4096 "Cosine" false).2.present
      = true
    ∧ (createCollectionModel ⟨false, none⟩ "Qwen/Qwen3-Embedding-8B" 4096 "Cosine" false).2.metadata
      = none
    ∧ (createCollectionModel ⟨false, none⟩ "Qwen/Qwen3-Embedding-8B" 4096 "Cosine" false).1
      = Except.error "metadata upsert failed" :=
  ⟨rfl, rfl, rfl⟩

/-! ### Upload model selection (src/rag_in_aws/app/cli.py lines 307-348) -/

/-- What _handle_upload decides before dispatching to a handler. -/
structure UploadDecision where
  exitCode : Nat
  synced : Bool
  modelUsed : Option String
  warned : Bool
deriving Repr, DecidableEq

/-- The model-selection logic of RAGCli._handle_upload (cli.py lines
323-348): with a bound collection, a differing requested model warns and the
bound model wins, an agreeing or absent request uses the bound model
silently; with an unbound collection a requested model is used with a
warning and no model at all is an error. -/
def selectModelForUpload (bound requested : Option String) : Option (String × Bool) :=
  match bound, requested with
  | some b, some m => if m != b then some (b, true) else some (b, false)
  | some b, none => some (b, false)
  | none, some m => some (m, true)
  | none, none => none

/-- RAGCli._handle_upload up to handler dispatch (cli.py lines 307-352):
missing collection or missing model returns exit code 1 without syncing;
otherwise the sync proceeds with the selected model. -/
def handleUploadModel (collectionExists : Bool) (bound requested : Option String) :
    UploadDecision :=
  if collectionExists then
    match selectModelForUpload bound requested with
    | some (m, w) => ⟨0, true, some m, w⟩
    | none => ⟨1, false, none, false⟩
  else ⟨1, false, none, false⟩

/-- Claim C9: a requested model differing from the bound model is overridden
by the bound model with a warning (an agreeing request is silent); an
unbound collection uses the model given by the caller with a warning; and with no model
from either source the upload fails with exit code 1 without syncing. -/
theorem upload_model_selection (b m : String) :
    handleUploadModel true (some b) (some m)
      = (if m = b then ⟨0, true, some b, false⟩ else ⟨0, true, some b, true⟩)
    ∧ handleUploadModel true (some b) none = ⟨0, true, some b, false⟩
    ∧ handleUploadModel true none (some m) = ⟨0, true, some m, true⟩
    ∧ handleUploadModel true none none = ⟨1, false, none, false⟩ := by
  refine ⟨?_, rfl, rfl, rfl⟩
  by_cases h : m = b <;> simp [handleUploadModel, selectModelForUpload, h]

/-! ### Directory scan skip rules (qdrant_manager.py lines 534-573) -/

/-- The fixed skip set of QdrantManager._should_skip_file (line 567). -/
def skipPatternsList : List String := [".git", "__pycache__", "node_modules", ".env", ".venv"]

/-- QdrantManager._should_skip_file (lines 556-573) applied to the parts of
the path of the file: skip when any component is in the fixed set or begins with
a dot. -/
def shouldSkipFileParts (parts : List String) : Bool :=
  parts.any (fun part => skipPatternsList.contains part || strStartsWith part ".")

/-- QdrantManager._scan_files (lines 534-554): walk the directory entries
(relative path components paired with file bytes, under rootParts), skip
files per _should_skip_file on the absolute path, and map the kept
prefixed slash-joined relative paths to their streamed SHA-256 hashes. -/
def scanFiles (rootParts : List String) (entries : List (List String × List Nat))
    (pfx : String) : List (String × String) :=
  entries.filterMap (fun e =>
    if shouldSkipFileParts (rootParts ++ e.1) then none
    else some (pfx ++ String.intercalate "/" e.1, streamHashFile e.2))

/-- Claim C10: in the directory-based syncs every file whose path has a
component in {.git, __pycache__, node_modules, .env, .venv} or beginning
with a dot is skipped: it is never hashed and never enters the local map;
the dot rule is strictly broader than the fixed set (e.g. ".hidden.txt"). -/
theorem scan_skips_hidden_files :
    (∀ parts : List String, shouldSkipFileParts parts = true
        ↔ ∃ part ∈ parts, part ∈ skipPatternsList ∨ strStartsWith part "." = true)
    ∧ (∀ (rootParts : List String) (entries : List (List String × List Nat)) (pfx k h),
        (k, h) ∈ scanFiles rootParts entries pfx
          ↔ ∃ e ∈ entries, shouldSkipFileParts (rootParts ++ e.1) = false
              ∧ k = pfx ++ String.intercalate "/" e.1 ∧ h = streamHashFile e.2)
    ∧ shouldSkipFileParts [".hidden.txt"] = true
    ∧ ".hidden.txt" ∉ skipPatternsList := by
  refine ⟨?_, ?_, by decide, by decide⟩
  · intro parts
    simp [shouldSkipFileParts, List.any_eq_true]
  · intro rootParts entries pfx k h
    simp only [scanFiles, List.mem_filterMap]
    constructor
    · rintro ⟨e, he, hsome⟩
      by_cases hs : shouldSkipFileParts (rootParts ++ e.1) = true
      · rw [if_pos hs] at hsome
        cases hsome
      · rw [if_neg hs] at hsome
        obtain ⟨hk, hh⟩ := Prod.mk.injEq .. ▸ Option.some.injEq .. ▸ hsome
        exact ⟨e, he, by simpa using hs, by simp_all⟩
    · rintro ⟨e, he, hns, rfl, rfl⟩
      exact ⟨e, he, by rw [if_neg (by simp [hns])]⟩

end RagSync
